import Mathlib

/-!
Verification development for the flowd download-manager daemon.

Shallow embedding of the download lifecycle engine:
  * src/core/download/mod.rs   — statuses, the Downloader transfer state machine
  * src/core/download/utils.rs — header-driven file info, categorization,
                                 conflict-free output paths
  * src/core/db.rs             — row (de)serialization of the job store,
                                 category-filtered query construction

Rust functions that can panic are embedded as Option-returning (or
outcome-tagged) Lean functions, with `none` (or a `panicked` outcome)
marking the panic. Machine integers are modelled as Int/Nat (no value in
the engine approaches the 64-bit range). Library boundaries (reqwest,
SQLite, mime_guess, the URL parser) are modelled explicitly; each model
is documented at its definition.
-/

namespace Flowd

/-- Download statuses, from the DownloadStatus enum
(src/core/download/mod.rs lines 105-116). -/
inductive DownloadStatus where
  | pending
  | starting
  | inProgress
  | paused
  | canceled
  | completed
  | serverError
  | clientError
  | unknownError
deriving DecidableEq, Repr

/-- The lowercase storage tag of a status, from DownloadStatus::get_string
(src/core/download/mod.rs lines 133-145). -/
def DownloadStatus.get_string : DownloadStatus → String
  | .pending => "pending"
  | .starting => "starting"
  | .inProgress => "in_progress"
  | .paused => "paused"
  | .canceled => "canceled"
  | .completed => "completed"
  | .serverError => "server_error"
  | .clientError => "client_error"
  | .unknownError => "unknown_error"

/-- Parsing a storage tag, from DownloadStatus::from_string
(src/core/download/mod.rs lines 147-160). The Rust catch-all arm executes
`panic!("Invalid download status")`; the panic is modelled by `none`. -/
def DownloadStatus.from_string (value : String) : Option DownloadStatus :=
  if value = "pending" then some .pending
  else if value = "starting" then some .starting
  else if value = "in_progress" then some .inProgress
  else if value = "paused" then some .paused
  else if value = "canceled" then some .canceled
  else if value = "completed" then some .completed
  else if value = "server_error" then some .serverError
  else if value = "client_error" then some .clientError
  else if value = "unknown_error" then some .unknownError
  else none

/-- A job record, from the Download struct
(src/core/download/mod.rs lines 27-41). i64 fields become Int, u64 becomes
Nat. -/
structure Download where
  id : Int
  url : String
  status : DownloadStatus
  data_confirmed : Bool
  detected_output_file : Option String
  output_file : Option String
  temp_file : String
  resumable : Bool
  date_added : Int
  date_completed : Option Int
  size : Option Nat
deriving DecidableEq, Repr

/-! ## Job-store row serialization (src/core/db.rs)

The store binds every column parameter as a string (db.rs lines 131-149).
SQLite then applies column affinity: on the integer-affinity columns
date_added, date_completed and size (the spec's timestamp/byte-count
columns; the migration scripts live outside src/), a well-formed decimal
text is stored as the integer it denotes while other text stays text.
SqlValue models a stored cell after that conversion. The to_string
binding composed with the affinity conversion stores exactly the bound
integer, which is how the integer cells are built below. -/

inductive SqlValue where
  | int (i : Int)
  | text (s : String)
deriving DecidableEq, Repr

/-- A stored row of the downloads table, column for column as bound by
new_download / update_download (src/core/db.rs lines 104-150). The id
column is assigned by the store and is not part of the bound row. -/
structure StoredRow where
  url : String
  status : String
  data_confirmed : String
  detected_output_file : String
  output_file : String
  temp_file : String
  resumable : String
  date_added : SqlValue
  date_completed : SqlValue
  size : SqlValue
deriving DecidableEq, Repr

/-- The INSERT binding of new_download (src/core/db.rs lines 97-152):
optional strings are bound as the literal text "NULL" when absent
(`.as_deref().or(Some("NULL")).unwrap()`), booleans as Rust
`to_string()` ("true"/"false"), dates and size as decimal text, which
integer affinity stores as the integer itself; the absent marker "NULL"
is not numeric and stays text. -/
def new_download (d : Download) : StoredRow where
  url := d.url
  status := d.status.get_string
  data_confirmed := toString d.data_confirmed
  detected_output_file := d.detected_output_file.getD "NULL"
  output_file := d.output_file.getD "NULL"
  temp_file := d.temp_file
  resumable := toString d.resumable
  date_added := .int d.date_added
  date_completed :=
    match d.date_completed with
    | some t => .int t
    | none => .text "NULL"
  size :=
    match d.size with
    | some n => .int (n : Int)
    | none => .text "NULL"

/-- string_to_option (src/core/db.rs lines 370-376): the stored text
"NULL" reads back as an absent value. -/
def string_to_option (string : String) : Option String :=
  if string = "NULL" then none else some string

/-- Rust str::parse::\<bool\> accepts exactly "true" and "false". -/
def parseRustBool (s : String) : Option Bool :=
  if s = "true" then some true
  else if s = "false" then some false
  else none

/-- rusqlite row.get::\<i64\> succeeds on an integer cell and fails with
InvalidColumnType on a text cell (no string parsing). -/
def sqlGetInt : SqlValue → Option Int
  | .int i => some i
  | .text _ => none

/-- rusqlite row.get::\<u64\> on a cell: an integer cell converts when it
is non-negative, a text cell fails. -/
def sqlGetNat : SqlValue → Option Nat
  | .int i => if 0 ≤ i then some i.toNat else none
  | .text _ => none

/-- The row mapper of get_downloads_from_query (src/core/db.rs lines
161-175), which is how get_download_by_id materializes a job. `none`
covers the panics (from_string / parse::\<bool\>().unwrap()) and the
propagated row.get errors; date_completed and size use `.ok()`, turning
a failed conversion into an absent field. -/
def read_download_row (id : Int) (r : StoredRow) : Option Download := do
  let status ← DownloadStatus.from_string r.status
  let dc ← parseRustBool r.data_confirmed
  let res ← parseRustBool r.resumable
  let da ← sqlGetInt r.date_added
  some
    { id := id
      url := r.url
      status := status
      data_confirmed := dc
      detected_output_file := string_to_option r.detected_output_file
      output_file := string_to_option r.output_file
      temp_file := r.temp_file
      resumable := res
      date_added := da
      date_completed := sqlGetInt r.date_completed
      size := sqlGetNat r.size }

/-! ## Category-filtered query (src/core/db.rs lines 247-273) -/

/-- A configured category (src/core/config.rs lines 26-29). -/
structure Category where
  extensions : List String
  directory : String
deriving DecidableEq, Repr

/-- The WHERE clauses built by get_downloads_by_category (src/core/db.rs
lines 258-264): one condition per extension index i, formatted as
`output_file LIKE %?i OR detected_output_file LIKE %?i`. -/
def categoryConditions (n : Nat) : List String :=
  (List.range n).map fun i =>
    "output_file LIKE %?" ++ toString i ++ " OR detected_output_file LIKE %?" ++ toString i

/-- The SQL text assembled by get_downloads_by_category (src/core/db.rs
line 266). -/
def category_query (extensions : List String) : String :=
  "SELECT * FROM downloads WHERE " ++ String.intercalate " OR " (categoryConditions extensions.length)

/-- get_downloads_by_category (src/core/db.rs lines 247-273) against an
abstract query runner standing for the SQLite connection: an unknown
category name returns Ok(empty) without touching the store; a known one
hands the assembled SQL and the extension parameters to the store. -/
def get_downloads_by_category
    (categories : List (String × Category))
    (runQuery : String → List String → Except String (List Download))
    (category : String) : Except String (List Download) :=
  match (categories.find? fun c => c.1 = category) with
  | none => .ok []
  | some (_, cat) => runQuery (category_query cat.extensions) cat.extensions

/-! ## Character-list string helpers

Scanning helpers used by the embeddings, written by structural recursion
on List Char so that concrete runs reduce inside the kernel. Byte indices
of the Rust code coincide with character indices because reqwest header
values observed through to_str() are ASCII. -/

/-- Whether pat occurs at the end of s (Rust str::ends_with). -/
def strEndsWith (s pat : String) : Bool :=
  pat.data.isSuffixOf s.data

/-- The prefix of a character list before the first occurrence of sep;
whole list if sep is absent (Rust str::split(sep) first element). -/
def takeUntilChar (sep : Char) : List Char → List Char
  | [] => []
  | c :: r => if c = sep then [] else c :: takeUntilChar sep r

/-- Index of the first occurrence of pat (Rust str::find). -/
def findSubstrIdx (pat : List Char) : List Char → Option Nat
  | [] => if pat = [] then some 0 else none
  | c :: r => if pat.isPrefixOf (c :: r) then some 0 else (findSubstrIdx pat r).map (· + 1)

/-- Split on a separator character, keeping empty groups
(Rust str::split). -/
def splitOnChar (sep : Char) : List Char → List (List Char)
  | [] => [[]]
  | c :: r =>
    if c = sep then [] :: splitOnChar sep r
    else
      match splitOnChar sep r with
      | [] => [[c]]
      | g :: gs => (c :: g) :: gs

/-- Decimal parse of an unsigned integer (Rust str::parse::\<u64\> on the
plain digit form). -/
def parseNatDec (s : String) : Option Nat :=
  if s.data ≠ [] ∧ s.data.all Char.isDigit then
    some (s.data.foldl (fun a c => a * 10 + (c.toNat - '0'.toNat)) 0)
  else none

/-! ## Percent decoding (the urlencoding crate)

urlencoding::decode replaces every %XY hex pair by the byte it denotes,
keeps malformed escapes literally, and then reinterprets the byte string
as UTF-8, failing (which the caller unwraps into a panic) when the bytes
are not valid UTF-8. Modelled by an explicit UTF-8 encoder/decoder over
byte lists. -/

/-- Value of a hexadecimal digit. -/
def hexVal (c : Char) : Option Nat :=
  if '0' ≤ c ∧ c ≤ '9' then some (c.toNat - '0'.toNat)
  else if 'a' ≤ c ∧ c ≤ 'f' then some (c.toNat - 'a'.toNat + 10)
  else if 'A' ≤ c ∧ c ≤ 'F' then some (c.toNat - 'A'.toNat + 10)
  else none

/-- UTF-8 encoding of one scalar value, as a byte list. -/
def utf8EncodeChar (c : Char) : List Nat :=
  let n := c.toNat
  if n < 0x80 then [n]
  else if n < 0x800 then [0xC0 + n / 64, 0x80 + n % 64]
  else if n < 0x10000 then [0xE0 + n / 4096, 0x80 + n / 64 % 64, 0x80 + n % 64]
  else [0xF0 + n / 262144, 0x80 + n / 4096 % 64, 0x80 + n / 64 % 64, 0x80 + n % 64]

/-- The byte string produced by percent-decoding: %XY pairs become the
byte XY, everything else contributes its UTF-8 bytes. -/
def percentDecodeBytes : List Char → List Nat
  | [] => []
  | '%' :: h :: l :: rest =>
    match hexVal h, hexVal l with
    | some a, some b => (a * 16 + b) :: percentDecodeBytes rest
    | _, _ => utf8EncodeChar '%' ++ percentDecodeBytes (h :: l :: rest)
  | c :: rest => utf8EncodeChar c ++ percentDecodeBytes rest

/-- UTF-8 decoding of a byte list; none on malformed input (overlong
forms, surrogates and out-of-range values rejected). -/
def utf8DecodeBytes : List Nat → Option (List Char)
  | [] => some []
  | b :: rest =>
    if b < 0x80 then (utf8DecodeBytes rest).map (Char.ofNat b :: ·)
    else if b < 0xC2 then none
    else if b < 0xE0 then
      match rest with
      | b2 :: rest2 =>
        if 0x80 ≤ b2 ∧ b2 < 0xC0 then
          (utf8DecodeBytes rest2).map (Char.ofNat ((b - 0xC0) * 64 + (b2 - 0x80)) :: ·)
        else none
      | [] => none
    else if b < 0xF0 then
      match rest with
      | b2 :: b3 :: rest3 =>
        if 0x80 ≤ b2 ∧ b2 < 0xC0 ∧ 0x80 ≤ b3 ∧ b3 < 0xC0 then
          let n := (b - 0xE0) * 4096 + (b2 - 0x80) * 64 + (b3 - 0x80)
          if n < 0x800 ∨ (0xD800 ≤ n ∧ n < 0xE000) then none
          else (utf8DecodeBytes rest3).map (Char.ofNat n :: ·)
        else none
      | _ => none
    else if b < 0xF5 then
      match rest with
      | b2 :: b3 :: b4 :: rest4 =>
        if 0x80 ≤ b2 ∧ b2 < 0xC0 ∧ 0x80 ≤ b3 ∧ b3 < 0xC0 ∧ 0x80 ≤ b4 ∧ b4 < 0xC0 then
          let n := (b - 0xF0) * 262144 + (b2 - 0x80) * 4096 + (b3 - 0x80) * 64 + (b4 - 0x80)
          if n < 0x10000 ∨ 0x110000 ≤ n then none
          else (utf8DecodeBytes rest4).map (Char.ofNat n :: ·)
        else none
      | _ => none
    else none

/-- urlencoding::decode followed by the callers' unwrap: none is the
panic on invalid UTF-8. -/
def decode (s : String) : Option String :=
  (utf8DecodeBytes (percentDecodeBytes s.data)).map List.asString

/-! ## Header-driven FileInfo (src/core/download/utils.rs lines 24-117) -/

/-- File metadata computed from response headers, the FileInfo struct
(src/core/download/mod.rs lines 163-168). -/
structure FileInfo where
  file_name : String
  content_length : Option Nat
  content_type : Option String
  resumable : Bool
deriving DecidableEq, Repr

/-- reqwest HeaderMap::get. Header names are stored in canonical
lowercase form, so lookup is an exact match on the lowercase name. -/
def headerGet (headers : List (String × String)) (name : String) : Option String :=
  (headers.find? fun h => h.1 = name).map (·.2)

/-- The Content-Disposition file-name extraction
(src/core/download/utils.rs lines 34-48): after `filename="` take from
offset index+10, after bare `filename=` from index+9, in both cases up
to but excluding the last character of the header value. -/
def cdFileName (headers : List (String × String)) : Option String :=
  (headerGet headers "content-disposition").bind fun ct =>
    let cs := ct.data
    let idx : Option Nat :=
      match findSubstrIdx "filename=\"".data cs with
      | some i => some (i + 10)
      | none => (findSubstrIdx "filename=".data cs).map (· + 9)
    idx.map fun i => ((cs.drop i).take (cs.length - 1 - i)).asString

/-- The path segments of the effective URL, modelling
url::Url::parse(url).unwrap().path_segments(): the outer none is the
unwrap panic on an unparseable input (no scheme), the inner none is a
cannot-be-a-base URL (scheme without authority). For an authority URL
the path runs from the first slash after the host up to the query or
fragment, split on slashes with empty segments kept; a URL with no path
normalizes to the single empty segment. -/
def urlPathSegments (url : String) : Option (Option (List String)) :=
  let cs := url.data
  match findSubstrIdx "://".data cs with
  | none => if cs.contains ':' then some none else none
  | some i =>
    let after := (cs.drop (i + 3)).takeWhile fun c => c ≠ '?' ∧ c ≠ '#'
    match findSubstrIdx "/".data after with
    | none => some (some [""])
    | some j => some (some ((splitOnChar '/' (after.drop (j + 1))).map List.asString))

/-- The content type: the leading segment of the Content-Type value up
to a semicolon (src/core/download/utils.rs lines 27-31). -/
def contentTypeOf (headers : List (String × String)) : Option String :=
  (headerGet headers "content-type").map fun ct => (takeUntilChar ';' ct.data).asString

/-- The candidate extension from the content type
(src/core/download/utils.rs lines 60-73): the first mime_guess
extension, empty when the content type is absent or unknown. -/
def ctExtensionOf (mimeExt : String → Option String)
    (headers : List (String × String)) : String :=
  match contentTypeOf headers with
  | some ct => (mimeExt ct).getD ""
  | none => ""

/-- The URL step of the name derivation (src/core/download/utils.rs
lines 78-94): the last path segment of the effective URL when nonempty,
the literal name download otherwise; none is the Url::parse unwrap
panic. -/
def urlLastSegment (url : String) : Option String :=
  (urlPathSegments url).map fun segments =>
    (segments.bind fun segs =>
      match segs.getLast? with
      | some seg => if seg = "" then none else some seg
      | none => none).getD "download"

/-- get_file_info_from_headers (src/core/download/utils.rs lines
24-117). mimeExt is the mime_guess table: the first known extension for
a MIME type (get_mime_extensions_str composed with taking element 0).
none is a panic: either Url::parse(url).unwrap() on an unparseable URL
or decode(..).unwrap() on invalidly encoded bytes. -/
def get_file_info_from_headers (mimeExt : String → Option String)
    (url : String) (headers : List (String × String)) : Option FileInfo :=
  let content_type := contentTypeOf headers
  let file_name_from_header := cdFileName headers
  let resumable :=
    ((headerGet headers "accept-ranges").map fun ar =>
      decide (ar.data.map Char.toLower = "bytes".data)).getD false
  let ct_extension := ctExtensionOf mimeExt headers
  do
    let file_name ←
      match file_name_from_header with
      | none => do
        let last_url_segment ← urlLastSegment url
        pure (if strEndsWith last_url_segment ct_extension then last_url_segment
              else last_url_segment ++ "." ++ ct_extension)
      | some name => pure name
    let decoded ← decode file_name
    pure { file_name := decoded
           content_length := (headerGet headers "content-length").bind parseNatDec
           content_type := content_type
           resumable := resumable }

/-! ## Path manipulation (std::path::Path)

The Rust code manipulates paths through Path::parent, Path::file_stem,
Path::extension and Path::join. They are modelled on character lists for
inputs without a trailing slash, which is the shape every path in the
engine has. -/

/-- Index of the last occurrence of a character. -/
def lastIdxOf (c : Char) : List Char → Option Nat
  | [] => none
  | a :: r =>
    match lastIdxOf c r with
    | some i => some (i + 1)
    | none => if a = c then some 0 else none

/-- Index at which the last occurrence of pat starts (Rust str::rfind). -/
def lastSubstrIdx (pat : List Char) : List Char → Option Nat
  | [] => if pat = [] then some 0 else none
  | c :: r =>
    match lastSubstrIdx pat r with
    | some i => some (i + 1)
    | none => if pat.isPrefixOf (c :: r) then some 0 else none

/-- Remove trailing separators (Path components are normalized). -/
def dropTrailingSlashes (p : List Char) : List Char :=
  (p.reverse.dropWhile (· = '/')).reverse

/-- Path::parent. The parent of a bare file name is the empty path, the
parent of an entry of the root is the root, the root and the empty path
have no parent. -/
def pathParent (p : List Char) : Option (List Char) :=
  if p = [] ∨ p = ['/'] then none
  else
    match lastIdxOf '/' p with
    | none => some []
    | some i =>
      let pre := dropTrailingSlashes (p.take i)
      if pre = [] then some ['/'] else some pre

/-- Path::file_name: the component after the last separator. -/
def pathFileName (p : List Char) : Option (List Char) :=
  let name :=
    match lastIdxOf '/' p with
    | none => p
    | some i => p.drop (i + 1)
  if name = [] then none else some name

/-- Path::file_stem and Path::extension of a file name, split at the
last dot; a name whose only dot is leading has no extension. -/
def fileStemExt (name : List Char) : List Char × Option (List Char) :=
  match lastIdxOf '.' name with
  | none => (name, none)
  | some i =>
    if i = 0 then (name, none)
    else (name.take i, some (name.drop (i + 1)))

/-- Path::join: an absolute right operand replaces the left one,
otherwise the operands are connected with a separator unless one is
already present. -/
def pathJoinChars (par name : List Char) : List Char :=
  if name.head? = some '/' then name
  else if par = [] then name
  else if par.getLast? = some '/' then par ++ name
  else par ++ '/' :: name

/-! ## Conflict-free output paths
(src/core/download/utils.rs lines 180-228) -/

/-- The compound extensions treated as a unit
(src/core/download/utils.rs lines 184-193), in source order. -/
def special_extensions : List (List Char) :=
  [".tar.gz".data, ".tar.xz".data, ".tar.bz2".data, ".tar.lz".data,
   ".tar.lzma".data, ".tar.lzo".data, ".tar.lz4".data, ".tar.Z".data]

/-- The prefix of a list before the first occurrence of pat
(Rust str::split(pat) first element, for nonempty pat). -/
def beforeFirst (pat : List Char) : List Char → List Char
  | [] => []
  | c :: r => if pat.isPrefixOf (c :: r) then [] else c :: beforeFirst pat r

/-- Whether a stem matches the conflict-marker pattern: it ends with a
space, an opening parenthesis, one or more digits and a closing
parenthesis. -/
def endsWithMarker (s : List Char) : Bool :=
  match s.reverse with
  | c :: rest =>
    if c = ')' then
      let ds := rest.takeWhile (·.isDigit)
      decide (ds ≠ []) &&
        (match rest.drop ds.length with
         | c2 :: c3 :: _ => c2 = '(' && c3 = ' '
         | _ => false)
    else false
  | [] => false

/-- The marker-stripping step (src/core/download/utils.rs lines
212-215): when the stem matches the marker pattern, cut it at the last
occurrence of the two characters space and opening parenthesis. The
fallback arm is unreachable: a matching stem contains that substring. -/
def stripMarkerIf (stem0 : List Char) : List Char :=
  if endsWithMarker stem0 then
    match lastSubstrIdx " (".data stem0 with
    | some i => stem0.take i
    | none => stem0
  else stem0

/-- Decimal digits of a number (Rust integer formatting), with a fuel
argument so the definition is structural; fuel n + 1 always suffices. -/
def natToCharsAux : Nat → Nat → List Char
  | 0, _ => []
  | f + 1, n =>
    if n < 10 then [Char.ofNat ('0'.toNat + n)]
    else natToCharsAux f (n / 10) ++ [Char.ofNat ('0'.toNat + n % 10)]

/-- Decimal representation of a Nat as characters. -/
def natToChars (n : Nat) : List Char :=
  natToCharsAux (n + 1) n

/-- The collision loop (src/core/download/utils.rs lines 217-225):
starting from the reassembled base path, while the candidate exists try
the stem extended with the marker of the next index. The counter fuel
makes the recursion structural; the live loop terminates because the
existing set is finite and the candidates are pairwise distinct, and no
theorem below depends on the fuel-exhausted arm. -/
def conflictLoop (existing : List (List Char)) (parent stem ext : List Char) :
    List Char → Nat → Nat → Option (List Char)
  | _, _, 0 => none
  | cur, i, fuel + 1 =>
    if existing.contains cur then
      conflictLoop existing parent stem ext
        (pathJoinChars parent (stem ++ " (".data ++ natToChars i ++ ")".data ++ '.' :: ext))
        (i + 1) fuel
    else some cur

/-- get_conflict_free_file_path (src/core/download/utils.rs lines
180-228) against the set of currently existing paths. none is a panic:
parent().unwrap() on a path without a parent, or — on the branch without
a compound extension — file_stem().unwrap() / extension().unwrap() on a
name without an extension. -/
def get_conflict_free_file_path (existing : List (List Char)) (file_path : List Char) :
    Option (List Char) :=
  match pathParent file_path with
  | none => none
  | some parent =>
    let split? : Option (List Char × List Char) :=
      match special_extensions.find? (fun e => e.isSuffixOf file_path) with
      | some sExt => some (beforeFirst sExt file_path, sExt.drop 1)
      | none =>
        match pathFileName file_path with
        | none => none
        | some name =>
          match fileStemExt name with
          | (_, none) => none
          | (stem, some ext) => some (stem, ext)
    match split? with
    | none => none
    | some (stem0, ext) =>
      let stem := stripMarkerIf stem0
      let base := pathJoinChars parent (stem ++ '.' :: ext)
      conflictLoop existing parent stem ext base 1 (existing.length + 2)

/-- String-level wrapper of the conflict resolver, as called from the
transfer (src/core/download/mod.rs line 441). -/
def conflictFreePathStr (existing : List String) (p : String) : Option String :=
  (get_conflict_free_file_path (existing.map String.data) p.data).map List.asString

/-! ## Configuration and categorization -/

/-- The resolved configuration record (src/core/config.rs lines 15-22).
The category map is a HashMap in Rust; its unspecified iteration order
is modelled by the order of an association list. -/
structure Config where
  default_directory : String
  temp_directory : String
  user_agent : String
  categories : List (String × Category)
  max_sim_downloads : Nat
deriving Repr

/-- shellexpand::tilde (src/utils/path.rs): a leading bare tilde is
replaced by the home directory; any other input is unchanged. -/
def expand (home p : String) : String :=
  if p = "~" then home
  else if "~/".data.isPrefixOf p.data then home ++ (p.data.drop 1).asString
  else p

/-- get_output_file_path (src/core/download/utils.rs lines 129-155):
split(".").last() as the extension probe, first category in iteration
order with an extension that is a suffix of the file name, default
directory otherwise, joined with the file name and tilde-expanded. -/
def get_output_file_path (config : Config) (home : String) (file_info : FileInfo) : String :=
  let file_extension := ((splitOnChar '.' file_info.file_name.data).getLast?.getD []).asString
  let file_directory :=
    if file_extension ≠ "" then
      match config.categories.find? (fun c =>
          c.2.extensions.any fun ext => strEndsWith file_info.file_name ext) with
      | some c => c.2.directory
      | none => ""
    else ""
  let file_directory :=
    if file_directory.length = 0 then config.default_directory else file_directory
  expand home (pathJoinChars file_directory.data file_info.file_name.data).asString

/-! ## The transfer executor (src/core/download/mod.rs)

Downloader::download and its helpers, embedded as a function of an
explicit world (registry sets, job store, filesystem) and an environment
of oracle inputs standing for the network and the clock. Rust panics
inside the transfer are the outcome `panicked`; the data-confirmation
poll that can never be satisfied in a single-actor run is the outcome
`hung`. Panics and early returns leave the already-mutated world and the
already-published events in place, which matches the Arc-shared registry
and the broadcast bus of the Rust code. -/

/-- The three id-registries of the Downloader (src/core/download/mod.rs
lines 194-200), HashSets modelled as duplicate-free lists. -/
structure DownloaderState where
  pause_requests : List Int
  cancel_requests : List Int
  downloading : List Int
deriving DecidableEq, Repr

/-- HashSet::insert. -/
def setInsert (x : Int) (l : List Int) : List Int :=
  if l.contains x then l else x :: l

/-- HashSet::remove. -/
def setRemove (x : Int) (l : List Int) : List Int :=
  l.filter fun y => y ≠ x

/-- The filesystem visible to a transfer: regular files with their byte
size (content abstracted to length) and the set of existing
directories. -/
structure FS where
  files : List (String × Nat)
  dirs : List String
deriving DecidableEq, Repr

def fsSize (fs : FS) (p : String) : Option Nat :=
  (fs.files.find? fun f => f.1 = p).map (·.2)

def fsSetSize (fs : FS) (p : String) (n : Nat) : FS :=
  { fs with files := fs.files.map fun f => if f.1 = p then (f.1, n) else f }

/-- OpenOptions append-create: an absent file comes into being empty, an
existing one keeps its content. -/
def fsCreate (fs : FS) (p : String) : FS :=
  if (fsSize fs p).isSome then fs else { fs with files := fs.files ++ [(p, 0)] }

def fsRemoveFile (fs : FS) (p : String) : FS :=
  { fs with files := fs.files.filter fun f => f.1 ≠ p }

/-- Path::exists, true for files and directories alike. -/
def fsPathExists (fs : FS) (p : String) : Bool :=
  (fsSize fs p).isSome || fs.dirs.contains p

/-- Every existing path, as handed to the conflict resolver. -/
def fsAllPaths (fs : FS) : List String :=
  (fs.files.map (·.1)) ++ fs.dirs

/-- tokio::fs::rename of a file. -/
def fsRename (fs : FS) (src dst : String) (sz : Nat) : FS :=
  let fs := fsRemoveFile fs src
  if (fsSize fs dst).isSome then fsSetSize fs dst sz
  else { fs with files := fs.files ++ [(dst, sz)] }

/-- The downloads table, keyed by id. Each db call opens a fresh
connection; the store itself is modelled as always available. -/
abbrev Store := List (Int × Download)

def storeGet (s : Store) (id : Int) : Option Download :=
  (s.find? fun r => r.1 = id).map (·.2)

/-- db::change_download_status: a single-column UPDATE. -/
def storeSetStatus (s : Store) (id : Int) (st : DownloadStatus) : Store :=
  s.map fun r => if r.1 = id then (r.1, { r.2 with status := st }) else r

/-- db::update_download: a full-row UPDATE keyed by the job id. -/
def storeUpdate (s : Store) (d : Download) : Store :=
  s.map fun r => if r.1 = d.id then (r.1, d) else r

/-- The events a transfer publishes on the broadcast bus: the
DownloadUpdate and DownloadProgress variants of DownloadEvent
(src/core/download/mod.rs lines 180-181). -/
inductive Event where
  | update (d : Download)
  | progress (id : Int) (done total : Nat)
deriving DecidableEq, Repr

/-- The mutable world of a transfer. -/
structure World where
  state : DownloaderState
  store : Store
  fs : FS
deriving DecidableEq, Repr

/-- How a transfer run ends: a normal return, a Rust panic, or the
unsatisfiable data-confirmation poll. -/
inductive Outcome where
  | ok
  | panicked
  | hung
deriving DecidableEq, Repr

/-- A finished run: its outcome, the final world, and the events
published on the bus in order. -/
structure RunResult where
  outcome : Outcome
  world : World
  events : List Event
deriving DecidableEq, Repr

/-- The HTTP response oracle: the error_for_status verdict, the
effective URL, the headers and the body chunk sizes. -/
structure HttpResponse where
  success : Bool
  effective_url : String
  headers : List (String × String)
  chunks : List Nat
deriving Repr

/-- Environment of a run: the configuration, the home directory used by
tilde expansion, the mime_guess table, the oracle for client
construction and for the GET request, the 250 ms progress-throttle
verdict per chunk index, and the completion clock. -/
structure Env where
  config : Config
  home : String
  mimeExt : String → Option String
  client_build_ok : Bool
  response : Option HttpResponse
  chunkTimerFires : Nat → Bool
  now : Int

/-- The built reqwest client as far as the engine observes it: the user
agent and the optional default Range header. -/
structure HttpClient where
  user_agent : String
  range_header : Option String
deriving DecidableEq, Repr

/-- Downloader::prepare_download (src/core/download/mod.rs lines
501-526): insert the id into the downloading set; when the scratch file
exists with nonzero size, either record it as the start byte (resumable)
or attempt to truncate it. That truncation is in fact a panic in the
source: the scratch file is opened read-only (lines 506-510), so
temp_file.set_len(0).await.unwrap() (line 522) fails on that handle and
unwraps. The second component is none for that panic; the registry
insertion has already happened when it fires, and the filesystem is
left untouched. -/
def prepare_download (st : DownloaderState) (fs : FS) (download : Download) :
    DownloaderState × Option (FS × Option Nat) :=
  let st := { st with downloading := setInsert download.id st.downloading }
  match fsSize fs download.temp_file with
  | none => (st, some (fs, none))
  | some downloaded_size =>
    if 0 < downloaded_size then
      if download.resumable then (st, some (fs, some downloaded_size))
      else (st, none)
    else (st, some (fs, none))

/-- Downloader::create_client (src/core/download/mod.rs lines 538-554):
a client with the configured user agent, and with the default header
`Range: bytes=N-` exactly when a start byte is set. The builder-failure
oracle stands for reqwest::ClientBuilder::build returning Err. -/
def create_client (build_ok : Bool) (start_byte : Option Nat) (config : Config) :
    Except Unit HttpClient :=
  let headers := start_byte.map fun byte => "bytes=" ++ toString byte ++ "-"
  if build_ok then .ok { user_agent := config.user_agent, range_header := headers }
  else .error ()

/-- Downloader::update_download_status_and_notify (src/core/download/mod.rs
lines 616-635): single-column status write plus an Update event carrying
the fresh snapshot. -/
def update_status_notify (w : World) (d : Download) (st : DownloadStatus) :
    World × Download × Event :=
  let d := { d with status := st }
  ({ w with store := storeSetStatus w.store d.id st }, d, .update d)

/-- Downloader::update_download_in_db_and_notify (src/core/download/mod.rs
lines 642-657): full-row write plus an Update event. -/
def update_db_notify (w : World) (d : Download) : World × Event :=
  ({ w with store := storeUpdate w.store d }, .update d)

/-- Downloader::cancel_download (src/core/download/mod.rs lines
587-608): transition to Canceled, publish, truncate the scratch file
(failures to open it are ignored), clear the cancel request. -/
def cancel_download (w : World) (d : Download) : World × Download × List Event :=
  let (w, d, e) := update_status_notify w d .canceled
  let w :=
    { w with fs := if (fsSize w.fs d.temp_file).isSome then fsSetSize w.fs d.temp_file 0 else w.fs }
  let w := { w with state := { w.state with cancel_requests := setRemove d.id w.state.cancel_requests } }
  (w, d, [e])

/-- Downloader::pause_download (src/core/download/mod.rs lines 561-580):
transition to Paused, publish, clear the pause request; the scratch file
is kept. -/
def pause_download (w : World) (d : Download) : World × Download × List Event :=
  let (w, d, e) := update_status_notify w d .paused
  let w := { w with state := { w.state with pause_requests := setRemove d.id w.state.pause_requests } }
  (w, d, [e])

/-- The chunk loop (src/core/download/mod.rs lines 386-418). Per chunk:
publish Progress when the throttle allows (always on the first chunk),
then honor a cancel or pause request (transition, publish, clear the
request, remove the id from downloading, return), else append the chunk
to the scratch file. Returns inl on an early return, inr with the world,
events and final progress counter otherwise. -/
def streamLoop (env : Env) (download_id : Int) (d : Download) :
    List Nat → Nat → Nat → World → Except RunResult (World × List Event × Nat)
  | [], _, progress, w => .ok (w, [], progress)
  | chunk :: rest, k, progress, w =>
    let evs0 : List Event :=
      if k = 0 || env.chunkTimerFires k then
        [.progress download_id progress (d.size.getD 0)]
      else []
    if w.state.cancel_requests.contains download_id then
      let (w, _, evs) := cancel_download w d
      let w := { w with state := { w.state with downloading := setRemove download_id w.state.downloading } }
      .error ⟨.ok, w, evs0 ++ evs⟩
    else if w.state.pause_requests.contains download_id then
      let (w, _, evs) := pause_download w d
      let w := { w with state := { w.state with downloading := setRemove download_id w.state.downloading } }
      .error ⟨.ok, w, evs0 ++ evs⟩
    else
      let w := { w with fs := fsSetSize w.fs d.temp_file ((fsSize w.fs d.temp_file).getD 0 + chunk) }
      match streamLoop env download_id d rest (k + 1) (progress + chunk) w with
      | .error r => .error { r with events := evs0 ++ r.events }
      | .ok (w, evs, p) => .ok (w, evs0 ++ evs, p)

/-- Completion tail (src/core/download/mod.rs lines 481-492): stamp
date_completed, publish, transition to Completed, publish, remove the id
from downloading. -/
def completeTail (env : Env) (download_id : Int) (d : Download) (w : World)
    (evs : List Event) : RunResult :=
  let d := { d with date_completed := some env.now }
  let (w, e2) := update_db_notify w d
  let (w, _, e3) := update_status_notify w d .completed
  let w := { w with state := { w.state with downloading := setRemove download_id w.state.downloading } }
  ⟨.ok, w, evs ++ [e2, e3]⟩

/-- The post-stream part of a transfer (src/core/download/mod.rs lines
420-492): refresh from the store (lookup failures keep the stale copy),
hang on an unconfirmed job, resolve the output path, apply conflict
resolution (panicking on a name without an extension), require the
parent directory (else ClientError, publish, return — the id stays in
downloading), rename the scratch file (panicking when it is gone),
record a changed output path, then complete. -/
def downloadFinish (env : Env) (download_id : Int) (d : Download)
    (file_info : FileInfo) (w : World) : RunResult :=
  let d := (storeGet w.store download_id).getD d
  if !d.data_confirmed then ⟨.hung, w, []⟩
  else
    let file_output0 :=
      match d.output_file with
      | some user_output_file => user_output_file
      | none =>
        match d.detected_output_file with
        | some output_file => output_file
        | none => get_output_file_path env.config env.home file_info
    match conflictFreePathStr (fsAllPaths w.fs) file_output0 with
    | none => ⟨.panicked, w, []⟩
    | some file_output =>
      let parentOk :=
        match pathParent file_output.data with
        | none => false
        | some par => fsPathExists w.fs par.asString
      if !parentOk then
        let (w, _, e) := update_status_notify w d .clientError
        ⟨.ok, w, [e]⟩
      else
        match fsSize w.fs d.temp_file with
        | none => ⟨.panicked, w, []⟩
        | some sz =>
          let w := { w with fs := fsRename w.fs d.temp_file file_output sz }
          match d.output_file with
          | some of =>
            if of ≠ file_output then
              let d := { d with output_file := some file_output }
              let (w, e1) := update_db_notify w d
              completeTail env download_id d w [e1]
            else completeTail env download_id d w []
          | none =>
            match d.detected_output_file with
            | none => ⟨.panicked, w, []⟩
            | some det =>
              if det ≠ file_output then
                let d := { d with output_file := some file_output }
                let (w, e1) := update_db_notify w d
                completeTail env download_id d w [e1]
              else completeTail env download_id d w []

/-- The response-processing part of a transfer (src/core/download/mod.rs
lines 342-418): compute FileInfo (panicking inside on an unparseable URL
or name bytes), detect the output path once, adopt the advertised size,
persist and publish, record resumability with another persist-publish,
open the scratch file for append-create, then stream. -/
def downloadAfterResponse (env : Env) (download_id : Int) (d : Download)
    (resp : HttpResponse) (w : World) : RunResult :=
  match get_file_info_from_headers env.mimeExt resp.effective_url resp.headers with
  | none => ⟨.panicked, w, []⟩
  | some file_info =>
    let d :=
      if d.detected_output_file = none then
        { d with detected_output_file := some (get_output_file_path env.config env.home file_info) }
      else d
    let d := if d.size = none then { d with size := file_info.content_length } else d
    let (w, e1) := update_db_notify w d
    let step :=
      if file_info.resumable then
        let d := { d with resumable := true }
        let (w, e2) := update_db_notify w d
        (w, d, [e2])
      else (w, d, ([] : List Event))
    let (w, d, evs2) := step
    let w := { w with fs := fsCreate w.fs d.temp_file }
    let progress := (fsSize w.fs d.temp_file).getD 0
    match streamLoop env download_id d resp.chunks 0 progress w with
    | .error r => { r with events := e1 :: evs2 ++ r.events }
    | .ok (w, evsL, _) =>
      let r := downloadFinish env download_id d file_info w
      { r with events := e1 :: evs2 ++ evsL ++ r.events }

/-- The request part of a transfer (src/core/download/mod.rs lines
321-340): transition to InProgress and publish; dispatch the GET — a
network error is unwrapped into a panic; a non-success status maps to
ServerError, publish, removal from downloading, normal return. -/
def downloadAfterClient (env : Env) (download_id : Int) (d : Download) (w : World) :
    RunResult :=
  let (w, d, e1) := update_status_notify w d .inProgress
  match env.response with
  | none => ⟨.panicked, w, [e1]⟩
  | some resp =>
    if !resp.success then
      let (w, _, e2) := update_status_notify w d .serverError
      let w := { w with state := { w.state with downloading := setRemove download_id w.state.downloading } }
      ⟨.ok, w, [e1, e2]⟩
    else
      let r := downloadAfterResponse env download_id d resp w
      ⟨r.outcome, r.world, e1 :: r.events⟩

/-- Downloader::download (src/core/download/mod.rs lines 288-493). A
missing job returns normally with no effect. Otherwise: prepare (insert
into downloading, scratch-file/start-byte logic — a nonzero
non-resumable scratch file panics there, before any transition), then
transition to Starting and publish, build the client — on failure
ClientError, publish, normal return (the id stays in downloading) —
then proceed with the request. -/
def download (env : Env) (w : World) (download_id : Int) : RunResult :=
  match storeGet w.store download_id with
  | none => ⟨.ok, w, []⟩
  | some d0 =>
    match prepare_download w.state w.fs d0 with
    | (st1, none) => ⟨.panicked, ⟨st1, w.store, w.fs⟩, []⟩
    | (st1, some (fs1, start_byte)) =>
      let w1 : World := ⟨st1, w.store, fs1⟩
      let (w2, d1, e1) := update_status_notify w1 d0 .starting
      match create_client env.client_build_ok start_byte env.config with
      | .error _ =>
        let (w3, _, e2) := update_status_notify w2 d1 .clientError
        ⟨.ok, w3, [e1, e2]⟩
      | .ok _ =>
        let r := downloadAfterClient env download_id d1 w2
        ⟨r.outcome, r.world, e1 :: r.events⟩

/-! ## Concrete inputs for the evaluated claims -/

def testConfig : Config :=
  { default_directory := "/downloads", temp_directory := "/t",
    user_agent := "flowd-agent", categories := [], max_sim_downloads := 2 }

def noMime : String → Option String := fun _ => none

def noTimer : Nat → Bool := fun _ => false

def c1job : Download :=
  { id := 5, url := "https://example.com/f.bin", status := .pending,
    data_confirmed := true, detected_output_file := none, output_file := none,
    temp_file := "/t/x5", resumable := false, date_added := 10,
    date_completed := none, size := none }

def c1env : Env :=
  { config := testConfig, home := "/home/u", mimeExt := noMime,
    client_build_ok := true, response := none, chunkTimerFires := noTimer, now := 1000 }

def c1world : World :=
  { state := ⟨[], [], []⟩, store := [(5, c1job)], fs := ⟨[], ["/t", "/downloads"]⟩ }

def c2job : Download :=
  { id := 1, url := "https://example.com/f.bin", status := .completed,
    data_confirmed := true, detected_output_file := some "/tmp/out.bin",
    output_file := some "/tmp/out.bin", temp_file := "/t/x1", resumable := false,
    date_added := 10, date_completed := some 99, size := some 4 }

def c2env : Env :=
  { config := testConfig, home := "/home/u", mimeExt := noMime,
    client_build_ok := false, response := none, chunkTimerFires := noTimer, now := 1000 }

def c2world : World :=
  { state := ⟨[], [], []⟩, store := [(1, c2job)], fs := ⟨[], ["/tmp"]⟩ }

def c4job : Download :=
  { id := 0, url := "https://example.com/f.bin", status := .pending,
    data_confirmed := false, detected_output_file := none,
    output_file := some "NULL", temp_file := "/t/x", resumable := false,
    date_added := 5, date_completed := none, size := none }

def c4wjob : Download :=
  { id := 0, url := "https://example.com/a%20b.tar.gz", status := .paused,
    data_confirmed := true, detected_output_file := some "/downloads/a b.tar.gz",
    output_file := none, temp_file := "/t/abcdefghij", resumable := true,
    date_added := 1700000000, date_completed := some 1700000100, size := some 1024 }

def c6job : Download :=
  { id := 6, url := "https://example.com/f.bin", status := .pending,
    data_confirmed := true, detected_output_file := none, output_file := none,
    temp_file := "/t/x6", resumable := false, date_added := 10,
    date_completed := none, size := none }

def c6env : Env :=
  { config := testConfig, home := "/home/u", mimeExt := noMime,
    client_build_ok := false, response := none, chunkTimerFires := noTimer, now := 1000 }

def c6world : World :=
  { state := ⟨[], [], []⟩, store := [(6, c6job)], fs := ⟨[], ["/t", "/downloads"]⟩ }

def c10job : Download :=
  { id := 9, url := "https://example.com/f.bin", status := .pending,
    data_confirmed := true, detected_output_file := some "/tmp/d.bin",
    output_file := some "/tmp/noext", temp_file := "/t/x9", resumable := false,
    date_added := 10, date_completed := none, size := none }

def c10env : Env :=
  { config := testConfig, home := "/home/u", mimeExt := noMime,
    client_build_ok := true,
    response := some ⟨true, "https://example.com/f.bin", [], []⟩,
    chunkTimerFires := noTimer, now := 1000 }

def c10world : World :=
  { state := ⟨[], [], []⟩, store := [(9, c10job)],
    fs := ⟨[("/t/x9", 0)], ["/tmp", "/t"]⟩ }

def c8state : DownloaderState := ⟨[], [], []⟩

def c8fsR : FS := ⟨[("/t/scratch", 500)], []⟩

def c8jobR : Download :=
  { id := 11, url := "https://example.com/f.bin", status := .paused,
    data_confirmed := true, detected_output_file := none, output_file := none,
    temp_file := "/t/scratch", resumable := true, date_added := 10,
    date_completed := none, size := none }

def c8jobN : Download := { c8jobR with resumable := false }

def c8env : Env :=
  { config := testConfig, home := "/home/u", mimeExt := noMime,
    client_build_ok := true, response := none, chunkTimerFires := noTimer, now := 1000 }

def c8world : World :=
  { state := ⟨[], [], []⟩, store := [(11, c8jobN)], fs := c8fsR }

/-! ## Shared lemmas -/

/-- Parsing the storage tag of a status recovers the status. -/
theorem from_string_get_string (st : DownloadStatus) :
    DownloadStatus.from_string st.get_string = some st := by
  cases st <;> rfl

/-- Rust bool formatting and parsing round-trip. -/
theorem parseRustBool_toString (b : Bool) : parseRustBool (toString b) = some b := by
  cases b <;> rfl

/-- Reading back an optional string stored under the NULL sentinel, for
values other than the sentinel itself. -/
theorem string_to_option_getD (o : Option String) (h : o ≠ some "NULL") :
    string_to_option (o.getD "NULL") = o := by
  cases o with
  | none => rfl
  | some s =>
    have hs : s ≠ "NULL" := fun hs => h (congrArg some hs)
    simp [string_to_option, hs]

/-- Overwriting the size of a present file is observed by a lookup. -/
theorem fsSize_fsSetSize_self (fs : FS) (p : String) (n m : Nat)
    (h : fsSize fs p = some m) : fsSize (fsSetSize fs p n) p = some n := by
  obtain ⟨files, dirs⟩ := fs
  unfold fsSize at h ⊢
  unfold fsSetSize
  dsimp only at h ⊢
  induction files with
  | nil => simp [List.find?] at h
  | cons f rest ih =>
    by_cases hf : f.1 = p
    · rw [List.map_cons, if_pos hf, List.find?_cons_of_pos _ (by simp [hf])]
      simp
    · rw [List.map_cons, if_neg hf, List.find?_cons_of_neg _ (by simp [hf])]
      rw [List.find?_cons_of_neg _ (by simp [hf])] at h
      exact ih h

/-- Opening a present file in append-create mode leaves the filesystem
unchanged. -/
theorem fsCreate_of_present (fs : FS) (p : String) (h : (fsSize fs p).isSome) :
    fsCreate fs p = fs := by
  unfold fsCreate
  simp [h]

/-- Inserting into a registry set makes it contain the id. -/
theorem setInsert_contains (x : Int) (l : List Int) :
    (setInsert x l).contains x = true := by
  unfold setInsert
  split
  · assumption
  · simp

/-! ## Scanning lemmas for conflict resolution -/

theorem lastIdxOf_eq_none (c : Char) (l : List Char) (h : c ∉ l) :
    lastIdxOf c l = none := by
  induction l with
  | nil => rfl
  | cons a r ih =>
    simp only [List.mem_cons, not_or] at h
    unfold lastIdxOf
    rw [ih h.2, if_neg (Ne.symm h.1)]

theorem lastIdxOf_append_cons (c : Char) (xs ys : List Char) (h : c ∉ ys) :
    lastIdxOf c (xs ++ c :: ys) = some xs.length := by
  induction xs with
  | nil =>
    rw [List.nil_append]
    unfold lastIdxOf
    rw [lastIdxOf_eq_none c ys h, if_pos rfl]
    rfl
  | cons x xs ih =>
    rw [List.cons_append]
    unfold lastIdxOf
    rw [ih]
    rfl

theorem lastSubstrIdx_none_of_head_not_mem (c : Char) (pat l : List Char) (h : c ∉ l) :
    lastSubstrIdx (c :: pat) l = none := by
  induction l with
  | nil => rfl
  | cons a r ih =>
    simp only [List.mem_cons, not_or] at h
    unfold lastSubstrIdx
    rw [ih h.2]
    have hba : (c == a) = false := by simp [h.1]
    have hpre : (c :: pat).isPrefixOf (a :: r) = false := by
      simp [List.isPrefixOf, hba]
    rw [hpre]
    rfl

theorem prefixOf_self (l : List Char) : l.isPrefixOf l = true := by
  induction l with
  | nil => rfl
  | cons a r ih => simp [List.isPrefixOf, ih]

theorem digit_not_special (c : Char) (h : c.isDigit = true) :
    c ≠ ' ' ∧ c ≠ '(' ∧ c ≠ ')' ∧ c ≠ '.' ∧ c ≠ '/' := by
  refine ⟨?_, ?_, ?_, ?_, ?_⟩ <;>
    (intro he; subst he; exact absurd h (by decide))

theorem lastSubstrIdx_marker (s ds : List Char)
    (hd : ∀ c ∈ ds, c.isDigit = true) :
    lastSubstrIdx " (".data (s ++ ' ' :: '(' :: (ds ++ [')'])) = some s.length := by
  have hnm : ' ' ∉ '(' :: (ds ++ [')']) := by
    intro hmem
    rcases List.mem_cons.mp hmem with he | hmem
    · exact absurd he (by decide)
    · rcases List.mem_append.mp hmem with hmem | hmem
      · exact absurd (hd ' ' hmem) (by decide)
      · rcases List.mem_singleton.mp hmem with he
        exact absurd he (by decide)
  induction s with
  | nil =>
    show lastSubstrIdx " (".data (' ' :: '(' :: (ds ++ [')'])) = some 0
    unfold lastSubstrIdx
    rw [show " (".data = [' ', '('] from rfl]
    rw [lastSubstrIdx_none_of_head_not_mem ' ' ['('] _ hnm]
    have hpre : [' ', '('].isPrefixOf (' ' :: '(' :: (ds ++ [')'])) = true := by
      simp [List.isPrefixOf]
    rw [hpre]
    rfl
  | cons x xs ih =>
    rw [List.cons_append]
    unfold lastSubstrIdx
    rw [ih]
    rfl

theorem takeWhile_all_append (p : Char → Bool) (d : List Char) (x : Char)
    (rest : List Char) (hall : ∀ c ∈ d, p c = true) (hx : p x = false) :
    (d ++ x :: rest).takeWhile p = d := by
  induction d with
  | nil => simp [List.takeWhile_cons, hx]
  | cons a d ih =>
    rw [List.cons_append, List.takeWhile_cons, if_pos (hall a (List.mem_cons_self a d))]
    rw [ih fun c hc => hall c (List.mem_cons_of_mem a hc)]

theorem endsWithMarker_marker (s ds : List Char) (hne : ds ≠ [])
    (hd : ∀ c ∈ ds, c.isDigit = true) :
    endsWithMarker (s ++ ' ' :: '(' :: (ds ++ [')'])) = true := by
  have hrev : (s ++ ' ' :: '(' :: (ds ++ [')'])).reverse =
      ')' :: (ds.reverse ++ '(' :: ' ' :: s.reverse) := by
    simp
  have htw : (ds.reverse ++ '(' :: ' ' :: s.reverse).takeWhile (·.isDigit) = ds.reverse :=
    takeWhile_all_append _ _ _ _ (fun c hc => hd c (List.mem_reverse.mp hc)) (by decide)
  have hdrop : (ds.reverse ++ '(' :: ' ' :: s.reverse).drop ds.reverse.length =
      '(' :: ' ' :: s.reverse := List.drop_left _ _
  unfold endsWithMarker
  rw [hrev]
  dsimp only
  rw [if_pos rfl, htw, hdrop]
  simp [hne]

theorem stripMarkerIf_marker (s ds : List Char) (hne : ds ≠ [])
    (hd : ∀ c ∈ ds, c.isDigit = true) :
    stripMarkerIf (s ++ ' ' :: '(' :: (ds ++ [')'])) = s := by
  unfold stripMarkerIf
  rw [endsWithMarker_marker s ds hne hd, if_pos rfl, lastSubstrIdx_marker s ds hd]
  exact List.take_left s _

theorem stripMarkerIf_of_not (s : List Char) (h : endsWithMarker s = false) :
    stripMarkerIf s = s := by
  unfold stripMarkerIf
  rw [h]
  rfl

theorem stripMarkerIf_subset (s : List Char) : ∀ c ∈ stripMarkerIf s, c ∈ s := by
  intro c hc
  unfold stripMarkerIf at hc
  split at hc
  · split at hc
    · exact List.mem_of_mem_take hc
    · exact hc
  · exact hc

/-! ## Path-shape lemmas for conflict resolution -/

theorem pathJoinChars_abs (par name : List Char) (h : name.head? = some '/') :
    pathJoinChars par name = name := by
  unfold pathJoinChars
  rw [if_pos h]

theorem pathJoinChars_rel (par name : List Char) (h1 : par.head? = some '/')
    (h2 : par.getLast? ≠ some '/') (h3 : name.head? ≠ some '/') :
    pathJoinChars par name = par ++ '/' :: name := by
  have hpar : par ≠ [] := by
    intro he
    rw [he] at h1
    exact absurd h1 (by decide)
  unfold pathJoinChars
  rw [if_neg h3, if_neg hpar, if_neg h2]

theorem dropTrailingSlashes_of (l : List Char) (h : l.getLast? ≠ some '/') :
    dropTrailingSlashes l = l := by
  unfold dropTrailingSlashes
  cases hr : l.reverse with
  | nil =>
    have : l = [] := by simpa using congrArg List.reverse hr
    simp [this]
  | cons a as =>
    have ha : ¬ a = '/' := by
      intro he
      apply h
      rw [← List.head?_reverse, hr, he]
      rfl
    rw [List.dropWhile_cons, if_neg (by simpa using ha)]
    rw [← hr, List.reverse_reverse]

theorem pathParent_append (parent name : List Char) (h1 : parent.head? = some '/')
    (h2 : parent.getLast? ≠ some '/') (h3 : '/' ∉ name) (h4 : name ≠ []) :
    pathParent (parent ++ '/' :: name) = some parent := by
  have hpne : parent ≠ [] := by
    intro he
    rw [he] at h1
    exact absurd h1 (by decide)
  have hne1 : parent ++ '/' :: name ≠ [] := by simp
  have hne2 : parent ++ '/' :: name ≠ ['/'] := by
    intro he
    have hl := congrArg List.length he
    have hp1 : 0 < parent.length := List.length_pos.mpr hpne
    have hn1 : 0 < name.length := List.length_pos.mpr h4
    simp [List.length_append] at hl
    omega
  unfold pathParent
  rw [if_neg (not_or.mpr ⟨hne1, hne2⟩), lastIdxOf_append_cons '/' parent name h3]
  have ht : (parent ++ '/' :: name).take parent.length = parent := List.take_left parent _
  dsimp only
  rw [ht, dropTrailingSlashes_of parent h2, if_neg hpne]

theorem pathFileName_append (parent name : List Char) (h3 : '/' ∉ name) (h4 : name ≠ []) :
    pathFileName (parent ++ '/' :: name) = some name := by
  have hd : (parent ++ '/' :: name).drop (parent.length + 1) = name := by
    rw [show parent ++ '/' :: name = (parent ++ ['/']) ++ name by simp]
    rw [show parent.length + 1 = (parent ++ ['/']).length by simp]
    exact List.drop_left _ _
  unfold pathFileName
  rw [lastIdxOf_append_cons '/' parent name h3]
  dsimp only
  rw [hd, if_neg h4]

theorem fileStemExt_append (stem ext : List Char) (h1 : '.' ∉ ext) (h2 : stem ≠ []) :
    fileStemExt (stem ++ '.' :: ext) = (stem, some ext) := by
  have hd : (stem ++ '.' :: ext).drop (stem.length + 1) = ext := by
    rw [show stem ++ '.' :: ext = (stem ++ ['.']) ++ ext by simp]
    rw [show stem.length + 1 = (stem ++ ['.']).length by simp]
    exact List.drop_left _ _
  have ht : (stem ++ '.' :: ext).take stem.length = stem := List.take_left stem _
  have hz : stem.length ≠ 0 := by
    have := List.length_pos.mpr h2
    omega
  unfold fileStemExt
  rw [lastIdxOf_append_cons '.' stem ext h1]
  dsimp only
  rw [if_neg hz, ht, hd]

theorem suffix_through_slash (S xs name : List Char) (hS : '/' ∉ S)
    (h : S <:+ xs ++ '/' :: name) : S <:+ name := by
  induction xs with
  | nil =>
    rw [List.nil_append] at h
    rcases List.suffix_cons_iff.mp h with he | h'
    · exact absurd (by rw [he]; exact List.mem_cons_self _ _) hS
    · exact h'
  | cons x xs ih =>
    rw [List.cons_append] at h
    rcases List.suffix_cons_iff.mp h with he | h'
    · exact absurd (by rw [he]; simp) hS
    · exact ih h'

theorem suffix_of_suffix_le (S T X : List Char) (hS : S <:+ X) (hT : T <:+ X)
    (h : S.length ≤ T.length) : S <:+ T := by
  have h1 : S.reverse <+: X.reverse := List.reverse_prefix.mpr hS
  have h2 : T.reverse <+: X.reverse := List.reverse_prefix.mpr hT
  have h3 := List.prefix_of_prefix_length_le h1 h2 (by simpa using h)
  exact List.reverse_prefix.mp h3

/-- Decided facts about the eight compound extensions: none contains a
slash, each has at least two dots, each is nonempty with a leading dot,
and each is at least six characters long. -/
theorem specials_facts :
    ∀ S ∈ special_extensions,
      '/' ∉ S ∧ 2 ≤ S.count '.' ∧ S ≠ [] ∧ '.' :: S.drop 1 = S ∧ 6 ≤ S.length := by
  decide

/-- No compound extension is a suffix of a different one. -/
theorem specials_pairwise :
    ∀ S ∈ special_extensions, ∀ T ∈ special_extensions, S ≠ T → ¬ S <:+ T := by
  decide

theorem no_special_suffix (xs name : List Char) (hc : name.count '.' ≤ 1) :
    special_extensions.find? (fun e => e.isSuffixOf (xs ++ '/' :: name)) = none := by
  rw [List.find?_eq_none]
  intro S hS hsuf
  obtain ⟨hsl, hcount, -, -, -⟩ := specials_facts S hS
  have h1 : S <:+ xs ++ '/' :: name := List.isSuffixOf_iff_suffix.mp hsuf
  have h2 : S <:+ name := suffix_through_slash S xs name hsl h1
  have h3 := h2.sublist.count_le '.'
  omega

theorem find?_eq_some_of_unique {l : List (List Char)} {q S : List Char}
    (hmem : S ∈ l) (hsuf : S.isSuffixOf q = true)
    (huniq : ∀ T ∈ l, T.isSuffixOf q = true → T = S) :
    l.find? (fun e => e.isSuffixOf q) = some S := by
  induction l with
  | nil => cases hmem
  | cons T rest ih =>
    by_cases hT : T.isSuffixOf q = true
    · have he : T = S := huniq T (List.mem_cons_self _ _) hT
      subst he
      exact List.find?_cons_of_pos _ hT
    · rw [List.find?_cons_of_neg _ (by simpa using hT)]
      refine ih ?_ fun T' hT' h' => huniq T' (List.mem_cons_of_mem _ hT') h'
      rcases List.mem_cons.mp hmem with he | hm
      · exact absurd (he ▸ hsuf) hT
      · exact hm

theorem find?_special_suffix (q sExt : List Char) (hmem : sExt ∈ special_extensions)
    (hsuf : sExt <:+ q) :
    special_extensions.find? (fun e => e.isSuffixOf q) = some sExt := by
  refine find?_eq_some_of_unique hmem (List.isSuffixOf_iff_suffix.mpr hsuf) ?_
  intro T hT hTq
  have hTq' : T <:+ q := List.isSuffixOf_iff_suffix.mp hTq
  by_contra hne
  rcases Nat.le_total T.length sExt.length with hle | hle
  · exact specials_pairwise T hT sExt hmem hne (suffix_of_suffix_le T sExt q hTq' hsuf hle)
  · exact specials_pairwise sExt hmem T hT (Ne.symm hne) (suffix_of_suffix_le sExt T q hsuf hTq' hle)

theorem beforeFirst_append (c : Char) (pat A : List Char) (h : c ∉ A) :
    beforeFirst (c :: pat) (A ++ c :: pat) = A := by
  induction A with
  | nil =>
    rw [List.nil_append]
    unfold beforeFirst
    rw [prefixOf_self]
    rfl
  | cons a A ih =>
    simp only [List.mem_cons, not_or] at h
    rw [List.cons_append]
    unfold beforeFirst
    have hba : (c == a) = false := by simp [h.1]
    have hpre : (c :: pat).isPrefixOf (a :: (A ++ c :: pat)) = false := by
      simp [List.isPrefixOf, hba]
    rw [hpre]
    simp only [Bool.false_eq_true, if_false, List.cons.injEq, true_and]
    exact ih h.2

/-! ## Loop-candidate lemmas for conflict resolution -/

theorem digit_char_isDigit (k : Nat) (h : k < 10) :
    (Char.ofNat ('0'.toNat + k)).isDigit = true := by
  interval_cases k <;> decide

theorem natToCharsAux_digits :
    ∀ (fuel n : Nat), ∀ c ∈ natToCharsAux fuel n, c.isDigit = true := by
  intro fuel
  induction fuel with
  | zero => intro n c hc; simp [natToCharsAux] at hc
  | succ f ih =>
    intro n c hc
    unfold natToCharsAux at hc
    by_cases h : n < 10
    · rw [if_pos h] at hc
      rcases List.mem_singleton.mp hc with he
      rw [he]
      exact digit_char_isDigit n h
    · rw [if_neg h] at hc
      rcases List.mem_append.mp hc with h1 | h2
      · exact ih _ c h1
      · rcases List.mem_singleton.mp h2 with he
        rw [he]
        exact digit_char_isDigit _ (Nat.mod_lt _ (by norm_num))

theorem natToChars_digits (n : Nat) : ∀ c ∈ natToChars n, c.isDigit = true :=
  natToCharsAux_digits (n + 1) n

theorem natToChars_ne_nil (n : Nat) : natToChars n ≠ [] := by
  unfold natToChars natToCharsAux
  by_cases h : n < 10 <;> simp [h]

theorem conflictLoop_parent_irrel (E : List (List Char)) (stem ext : List Char)
    (p1 p2 : List Char) (hs : stem.head? = some '/') :
    ∀ fuel cur i, conflictLoop E p1 stem ext cur i fuel = conflictLoop E p2 stem ext cur i fuel := by
  have hne : stem ≠ [] := by
    intro he
    rw [he] at hs
    exact absurd hs (by decide)
  intro fuel
  induction fuel with
  | zero => intro cur i; rfl
  | succ f ih =>
    intro cur i
    unfold conflictLoop
    by_cases hc : E.contains cur
    · rw [if_pos hc, if_pos hc]
      have habs : (stem ++ " (".data ++ natToChars i ++ ")".data ++ '.' :: ext).head? = some '/' := by
        rw [List.append_assoc, List.append_assoc, List.append_assoc,
          List.head?_append_of_ne_nil _ hne, hs]
      rw [pathJoinChars_abs p1 _ habs, pathJoinChars_abs p2 _ habs]
      exact ih _ _
    · rw [if_neg hc, if_neg hc]

theorem conflictLoop_result (E : List (List Char)) (parent stem ext : List Char) :
    ∀ (fuel : Nat) (cur : List Char) (i : Nat) (q : List Char),
      conflictLoop E parent stem ext cur i fuel = some q →
      q = cur ∨ ∃ j, i ≤ j ∧
        q = pathJoinChars parent (stem ++ " (".data ++ natToChars j ++ ")".data ++ '.' :: ext) := by
  intro fuel
  induction fuel with
  | zero => intro cur i q h; cases h
  | succ f ih =>
    intro cur i q h
    unfold conflictLoop at h
    by_cases hc : E.contains cur
    · rw [if_pos hc] at h
      rcases ih _ _ _ h with he | ⟨j, hij, he⟩
      · exact Or.inr ⟨i, Nat.le_refl i, he⟩
      · exact Or.inr ⟨j, Nat.le_of_succ_le hij, he⟩
    · rw [if_neg hc] at h
      exact Or.inl (Option.some.inj h).symm

/-- Evaluation of the conflict resolver on the branch without a compound
extension, given the outcome of each parse step. -/
theorem gcffp_eval_plain (E : List (List Char)) (p parent name stem0c ext : List Char)
    (hpar : pathParent p = some parent)
    (hfind : special_extensions.find? (fun e => e.isSuffixOf p) = none)
    (hfn : pathFileName p = some name)
    (hfse : fileStemExt name = (stem0c, some ext)) :
    get_conflict_free_file_path E p =
      conflictLoop E parent (stripMarkerIf stem0c) ext
        (pathJoinChars parent (stripMarkerIf stem0c ++ '.' :: ext)) 1 (E.length + 2) := by
  unfold get_conflict_free_file_path
  rw [hpar]
  dsimp only
  rw [hfind]
  dsimp only
  rw [hfn]
  dsimp only
  rw [hfse]

/-- Evaluation of the conflict resolver on the compound-extension
branch. -/
theorem gcffp_eval_special (E : List (List Char)) (p parent sExt : List Char)
    (hpar : pathParent p = some parent)
    (hfind : special_extensions.find? (fun e => e.isSuffixOf p) = some sExt) :
    get_conflict_free_file_path E p =
      conflictLoop E parent (stripMarkerIf (beforeFirst sExt p)) (sExt.drop 1)
        (pathJoinChars parent (stripMarkerIf (beforeFirst sExt p) ++ '.' :: sExt.drop 1))
        1 (E.length + 2) := by
  unfold get_conflict_free_file_path
  rw [hpar]
  dsimp only
  rw [hfind]

/-! ## Idempotence of conflict resolution -/

/-- Parse-and-loop evaluation for an absolute path with a slash-free,
dot-free file stem and a dot-free plain extension. -/
theorem gcffp_parse_plain (E : List (List Char)) (parent stemX ext : List Char)
    (hp1 : parent.head? = some '/') (hp2 : parent.getLast? ≠ some '/')
    (hx1 : '/' ∉ ext) (hx2 : '.' ∉ ext)
    (hX1 : '/' ∉ stemX) (hX2 : '.' ∉ stemX) (hXne : stemX ≠ []) :
    get_conflict_free_file_path E (parent ++ '/' :: (stemX ++ '.' :: ext)) =
      conflictLoop E parent (stripMarkerIf stemX) ext
        (pathJoinChars parent (stripMarkerIf stemX ++ '.' :: ext)) 1 (E.length + 2) := by
  have hname : '/' ∉ stemX ++ '.' :: ext := by
    intro hc
    rcases List.mem_append.mp hc with hc | hc
    · exact hX1 hc
    · rcases List.mem_cons.mp hc with he | hc
      · exact absurd he (by decide)
      · exact hx1 hc
  have hcount : (stemX ++ '.' :: ext).count '.' ≤ 1 := by
    rw [List.count_append, List.count_cons, List.count_eq_zero.mpr hX2,
      List.count_eq_zero.mpr hx2]
    simp
  exact gcffp_eval_plain E _ parent _ stemX ext
    (pathParent_append parent _ hp1 hp2 hname (by simp))
    (no_special_suffix parent _ hcount)
    (pathFileName_append parent _ hname (by simp))
    (fileStemExt_append stemX ext hx2 hXne)

/-- Idempotence of conflict resolution on the plain-extension branch:
for an absolute candidate path whose dot-free stem does not stack a
second conflict marker after stripping one, re-resolving the resolved
path returns it unchanged. -/
theorem gcffp_idem_plain (E : List (List Char)) (parent stem0 ext q : List Char)
    (hp1 : parent.head? = some '/') (hp2 : parent.getLast? ≠ some '/')
    (hs1 : '/' ∉ stem0) (hs2 : '.' ∉ stem0)
    (hsn : stripMarkerIf stem0 ≠ [])
    (hsm : endsWithMarker (stripMarkerIf stem0) = false)
    (hx1 : '/' ∉ ext) (hx2 : '.' ∉ ext)
    (hfp : get_conflict_free_file_path E (parent ++ '/' :: (stem0 ++ '.' :: ext)) = some q) :
    get_conflict_free_file_path E q = some q := by
  have hs0ne : stem0 ≠ [] := by
    intro he
    rw [he] at hsn
    exact hsn rfl
  have hsub := stripMarkerIf_subset stem0
  have hsA1 : '/' ∉ stripMarkerIf stem0 := fun hc => hs1 (hsub _ hc)
  have hsA2 : '.' ∉ stripMarkerIf stem0 := fun hc => hs2 (hsub _ hc)
  have hsAhead : (stripMarkerIf stem0).head? ≠ some '/' := by
    cases hA : stripMarkerIf stem0 with
    | nil => exact absurd hA hsn
    | cons a t =>
      intro he
      have ha : a = '/' := by simpa using he
      apply hsA1
      rw [hA, ha]
      exact List.mem_cons_self _ _
  have hjoin : pathJoinChars parent (stripMarkerIf stem0 ++ '.' :: ext) =
      parent ++ '/' :: (stripMarkerIf stem0 ++ '.' :: ext) :=
    pathJoinChars_rel _ _ hp1 hp2
      (by rw [List.head?_append_of_ne_nil _ hsn]; exact hsAhead)
  rw [gcffp_parse_plain E parent stem0 ext hp1 hp2 hx1 hx2 hs1 hs2 hs0ne] at hfp
  rcases conflictLoop_result E parent (stripMarkerIf stem0) ext _ _ _ _ hfp with hq | ⟨j, _, hq⟩
  · subst hq
    rw [hjoin] at hfp ⊢
    rw [gcffp_parse_plain E parent (stripMarkerIf stem0) ext hp1 hp2 hx1 hx2 hsA1 hsA2 hsn,
      stripMarkerIf_of_not _ hsm, hjoin]
    exact hfp
  · have hdd := natToChars_digits j
    have hdne := natToChars_ne_nil j
    have hshape : stripMarkerIf stem0 ++ " (".data ++ natToChars j ++ ")".data ++ '.' :: ext =
        (stripMarkerIf stem0 ++ ' ' :: '(' :: (natToChars j ++ [')'])) ++ '.' :: ext := by
      simp
    have hA'1 : '/' ∉ stripMarkerIf stem0 ++ ' ' :: '(' :: (natToChars j ++ [')']) := by
      intro hc
      rcases List.mem_append.mp hc with hc | hc
      · exact hsA1 hc
      · rcases List.mem_cons.mp hc with he | hc
        · exact absurd he (by decide)
        · rcases List.mem_cons.mp hc with he | hc
          · exact absurd he (by decide)
          · rcases List.mem_append.mp hc with hc | hc
            · exact absurd ((digit_not_special _ (hdd _ hc)).2.2.2.2) (by simp)
            · rcases List.mem_singleton.mp hc with he
              exact absurd he (by decide)
    have hA'2 : '.' ∉ stripMarkerIf stem0 ++ ' ' :: '(' :: (natToChars j ++ [')']) := by
      intro hc
      rcases List.mem_append.mp hc with hc | hc
      · exact hsA2 hc
      · rcases List.mem_cons.mp hc with he | hc
        · exact absurd he (by decide)
        · rcases List.mem_cons.mp hc with he | hc
          · exact absurd he (by decide)
          · rcases List.mem_append.mp hc with hc | hc
            · exact absurd ((digit_not_special _ (hdd _ hc)).2.2.2.1) (by simp)
            · rcases List.mem_singleton.mp hc with he
              exact absurd he (by decide)
    have hA'ne : stripMarkerIf stem0 ++ ' ' :: '(' :: (natToChars j ++ [')']) ≠ [] := by
      simp
    have hjq : pathJoinChars parent
        (stripMarkerIf stem0 ++ " (".data ++ natToChars j ++ ")".data ++ '.' :: ext) =
        parent ++ '/' :: (stripMarkerIf stem0 ++ " (".data ++ natToChars j ++ ")".data ++ '.' :: ext) :=
      pathJoinChars_rel _ _ hp1 hp2
        (by rw [List.append_assoc, List.append_assoc, List.append_assoc,
              List.head?_append_of_ne_nil _ hsn]
            exact hsAhead)
    subst hq
    rw [hjq, hshape]
    rw [gcffp_parse_plain E parent _ ext hp1 hp2 hx1 hx2 hA'1 hA'2 hA'ne,
      stripMarkerIf_marker _ _ hdne hdd, hjoin]
    rw [hjoin] at hfp
    rw [hjq, hshape] at hfp
    exact hfp

theorem nil_isPrefixOf (l : List Char) : ([] : List Char).isPrefixOf l = true := by
  cases l <;> rfl

theorem lastSubstrIdx_zero (pat l : List Char) (h : lastSubstrIdx pat l = some 0) :
    pat.isPrefixOf l = true := by
  cases l with
  | nil =>
    unfold lastSubstrIdx at h
    by_cases hp : pat = []
    · rw [hp]
      exact nil_isPrefixOf _
    · rw [if_neg hp] at h
      cases h
  | cons a r =>
    unfold lastSubstrIdx at h
    cases hrec : lastSubstrIdx pat r with
    | some i =>
      rw [hrec] at h
      dsimp only at h
      exact absurd (Option.some.inj h) (by omega)
    | none =>
      rw [hrec] at h
      dsimp only at h
      by_cases hp : pat.isPrefixOf (a :: r) = true
      · exact hp
      · rw [if_neg hp] at h
        cases h

theorem stripMarkerIf_prefix (l : List Char) : stripMarkerIf l <+: l := by
  unfold stripMarkerIf
  split
  · split
    · exact List.take_prefix _ _
    · exact List.prefix_refl _
  · exact List.prefix_refl _

theorem stripMarkerIf_head (l : List Char) (c : Char) (hc : l.head? = some c)
    (hne : c ≠ ' ') : (stripMarkerIf l).head? = some c := by
  unfold stripMarkerIf
  split
  · cases hidx : lastSubstrIdx " (".data l with
    | none => exact hc
    | some i =>
      dsimp only
      cases l with
      | nil => exact absurd hc (by simp)
      | cons a r =>
        have ha : a = c := by simpa using hc
        cases i with
        | zero =>
          have hpre := lastSubstrIdx_zero _ _ hidx
          have hsp : a = ' ' := by
            simp [List.isPrefixOf] at hpre
            exact hpre.1.symm
          exact absurd (ha ▸ hsp.symm).symm hne
        | succ k =>
          simp [List.take_succ_cons, ha]
  · exact hc

theorem pathParent_isSome (p : List Char) (h1 : p ≠ []) (h2 : p ≠ ['/']) :
    ∃ x, pathParent p = some x := by
  unfold pathParent
  rw [if_neg (not_or.mpr ⟨h1, h2⟩)]
  cases lastIdxOf '/' p with
  | none => exact ⟨[], rfl⟩
  | some i =>
    dsimp only
    split
    · exact ⟨['/'], rfl⟩
    · exact ⟨_, rfl⟩

/-- Parse-and-loop evaluation for an absolute path carrying a compound
extension, with a dot-free directory part and a slash-free dot-free
stem. -/
theorem gcffp_parse_special (E : List (List Char)) (parent stemX sExt : List Char)
    (hp1 : parent.head? = some '/') (hp2 : parent.getLast? ≠ some '/')
    (hmem : sExt ∈ special_extensions) (hpd : '.' ∉ parent)
    (hX1 : '/' ∉ stemX) (hX2 : '.' ∉ stemX) :
    get_conflict_free_file_path E (parent ++ '/' :: (stemX ++ sExt)) =
      conflictLoop E parent (stripMarkerIf (parent ++ '/' :: stemX)) (sExt.drop 1)
        (pathJoinChars parent (stripMarkerIf (parent ++ '/' :: stemX) ++ '.' :: sExt.drop 1))
        1 (E.length + 2) := by
  obtain ⟨hsl, -, hsne, hcons, -⟩ := specials_facts sExt hmem
  have hname : '/' ∉ stemX ++ sExt := by
    intro hc
    rcases List.mem_append.mp hc with hc | hc
    · exact hX1 hc
    · exact hsl hc
  have hnne : stemX ++ sExt ≠ [] := by simp [hsne]
  have hpar := pathParent_append parent _ hp1 hp2 hname hnne
  have hsuf : sExt <:+ parent ++ '/' :: (stemX ++ sExt) :=
    ⟨parent ++ '/' :: stemX, by simp⟩
  have hfind := find?_special_suffix _ sExt hmem hsuf
  have hdot : '.' ∉ parent ++ '/' :: stemX := by
    intro hc
    rcases List.mem_append.mp hc with hc | hc
    · exact hpd hc
    · rcases List.mem_cons.mp hc with he | hc
      · exact absurd he (by decide)
      · exact hX2 hc
  have hbf : beforeFirst sExt (parent ++ '/' :: (stemX ++ sExt)) = parent ++ '/' :: stemX := by
    rw [show parent ++ '/' :: (stemX ++ sExt) = (parent ++ '/' :: stemX) ++ sExt by simp]
    rw [← hcons]
    exact beforeFirst_append '.' (sExt.drop 1) _ hdot
  rw [gcffp_eval_special E _ parent sExt hpar hfind, hbf]

/-- Idempotence of conflict resolution on the compound-extension branch:
for an absolute candidate path ending in a compound extension, with a
dot-free directory part and a stem that does not stack a second marker
after stripping one, re-resolving the resolved path returns it
unchanged. -/
theorem gcffp_idem_special (E : List (List Char)) (parent stem0 sExt q : List Char)
    (hp1 : parent.head? = some '/') (hp2 : parent.getLast? ≠ some '/')
    (hpd : '.' ∉ parent) (hs1 : '/' ∉ stem0) (hs2 : '.' ∉ stem0)
    (hmem : sExt ∈ special_extensions)
    (hsm : endsWithMarker (stripMarkerIf (parent ++ '/' :: stem0)) = false)
    (hfp : get_conflict_free_file_path E (parent ++ '/' :: (stem0 ++ sExt)) = some q) :
    get_conflict_free_file_path E q = some q := by
  obtain ⟨hsl, -, hsne, hcons, hslen⟩ := specials_facts sExt hmem
  have hphead : (parent ++ '/' :: stem0).head? = some '/' := by
    rw [List.head?_append_of_ne_nil _ (by intro he; rw [he] at hp1; exact absurd hp1 (by decide))]
    exact hp1
  have hBhead : (stripMarkerIf (parent ++ '/' :: stem0)).head? = some '/' :=
    stripMarkerIf_head _ '/' hphead (by decide)
  have hBne : stripMarkerIf (parent ++ '/' :: stem0) ≠ [] := by
    intro he
    rw [he] at hBhead
    exact absurd hBhead (by decide)
  have hBdot : '.' ∉ stripMarkerIf (parent ++ '/' :: stem0) := by
    intro hc
    have hc' := stripMarkerIf_subset _ _ hc
    rcases List.mem_append.mp hc' with hc' | hc'
    · exact hpd hc'
    · rcases List.mem_cons.mp hc' with he | hc'
      · exact absurd he (by decide)
      · exact hs2 hc'
  have hjoin : ∀ par : List Char,
      pathJoinChars par (stripMarkerIf (parent ++ '/' :: stem0) ++ '.' :: sExt.drop 1) =
      stripMarkerIf (parent ++ '/' :: stem0) ++ '.' :: sExt.drop 1 :=
    fun par => pathJoinChars_abs _ _ (by rw [List.head?_append_of_ne_nil _ hBne]; exact hBhead)
  rw [gcffp_parse_special E parent stem0 sExt hp1 hp2 hmem hpd hs1 hs2, hjoin parent] at hfp
  have hBsExt : stripMarkerIf (parent ++ '/' :: stem0) ++ '.' :: sExt.drop 1 =
      stripMarkerIf (parent ++ '/' :: stem0) ++ sExt := by rw [hcons]
  rcases conflictLoop_result E parent _ _ _ _ _ _ hfp with hq | ⟨j, _, hq⟩
  · -- q is the reassembled base path
    subst hq
    obtain ⟨par', hpar'⟩ := pathParent_isSome
      (stripMarkerIf (parent ++ '/' :: stem0) ++ '.' :: sExt.drop 1)
      (by simp)
      (by
        intro he
        have hl := congrArg List.length he
        rw [List.length_append, List.length_cons,
          show (['/'] : List Char).length = 1 from rfl] at hl
        have h1 := List.length_pos.mpr hBne
        omega)
    have hsuf : sExt <:+ stripMarkerIf (parent ++ '/' :: stem0) ++ '.' :: sExt.drop 1 :=
      ⟨stripMarkerIf (parent ++ '/' :: stem0), by rw [hcons]⟩
    have hfind := find?_special_suffix _ sExt hmem hsuf
    rw [gcffp_eval_special E _ par' sExt hpar' hfind]
    have hbf : beforeFirst sExt (stripMarkerIf (parent ++ '/' :: stem0) ++ '.' :: sExt.drop 1) =
        stripMarkerIf (parent ++ '/' :: stem0) := by
      rw [hBsExt, ← hcons]
      exact beforeFirst_append '.' (sExt.drop 1) _ hBdot
    rw [hbf, stripMarkerIf_of_not _ hsm, hjoin par']
    rw [conflictLoop_parent_irrel E _ _ par' parent hBhead]
    exact hfp
  · -- q is a marker candidate
    have hdd := natToChars_digits j
    have hdne := natToChars_ne_nil j
    have habs : (stripMarkerIf (parent ++ '/' :: stem0) ++ " (".data ++ natToChars j ++
        ")".data ++ '.' :: sExt.drop 1).head? = some '/' := by
      rw [List.append_assoc, List.append_assoc, List.append_assoc,
        List.head?_append_of_ne_nil _ hBne]
      exact hBhead
    rw [pathJoinChars_abs _ _ habs] at hq
    have hshape : stripMarkerIf (parent ++ '/' :: stem0) ++ " (".data ++ natToChars j ++
        ")".data ++ '.' :: sExt.drop 1 =
        (stripMarkerIf (parent ++ '/' :: stem0) ++ ' ' :: '(' :: (natToChars j ++ [')'])) ++
          '.' :: sExt.drop 1 := by
      simp
    subst hq
    rw [hshape]
    have hA'dot : '.' ∉ stripMarkerIf (parent ++ '/' :: stem0) ++ ' ' :: '(' :: (natToChars j ++ [')']) := by
      intro hc
      rcases List.mem_append.mp hc with hc | hc
      · exact hBdot hc
      · rcases List.mem_cons.mp hc with he | hc
        · exact absurd he (by decide)
        · rcases List.mem_cons.mp hc with he | hc
          · exact absurd he (by decide)
          · rcases List.mem_append.mp hc with hc | hc
            · exact absurd ((digit_not_special _ (hdd _ hc)).2.2.2.1) (by simp)
            · rcases List.mem_singleton.mp hc with he
              exact absurd he (by decide)
    obtain ⟨par', hpar'⟩ := pathParent_isSome
      ((stripMarkerIf (parent ++ '/' :: stem0) ++ ' ' :: '(' :: (natToChars j ++ [')'])) ++
        '.' :: sExt.drop 1)
      (by simp)
      (by
        intro he
        have hl := congrArg List.length he
        rw [List.length_append, List.length_append, List.length_cons,
          show (['/'] : List Char).length = 1 from rfl] at hl
        have h1 := List.length_pos.mpr hBne
        omega)
    have hsuf : sExt <:+ (stripMarkerIf (parent ++ '/' :: stem0) ++ ' ' :: '(' ::
        (natToChars j ++ [')'])) ++ '.' :: sExt.drop 1 :=
      ⟨_, by rw [hcons]⟩
    have hfind := find?_special_suffix _ sExt hmem hsuf
    rw [gcffp_eval_special E _ par' sExt hpar' hfind]
    have hbf : beforeFirst sExt ((stripMarkerIf (parent ++ '/' :: stem0) ++ ' ' :: '(' ::
        (natToChars j ++ [')'])) ++ '.' :: sExt.drop 1) =
        stripMarkerIf (parent ++ '/' :: stem0) ++ ' ' :: '(' :: (natToChars j ++ [')']) := by
      conv_lhs => rw [← hcons]
      exact beforeFirst_append '.' (sExt.drop 1) _ hA'dot
    rw [hbf, stripMarkerIf_marker _ _ hdne hdd, hjoin par']
    rw [conflictLoop_parent_irrel E _ _ par' parent hBhead]
    rw [hshape] at hfp
    exact hfp

/-! ## The claims -/

/-- Claim C1. A failure while dispatching the GET request does not
translate to a terminal error-status transition with an Update event,
removal from downloading and a normal return: the transfer panics on
the send().await.unwrap() at src/core/download/mod.rs line 328, with the
job left InProgress and its id still in the downloading set. This
evaluates the transfer at a job whose request dispatch fails. -/
theorem claim_c1_send_failure_panics :
    (download c1env c1world 5).outcome = .panicked ∧
    storeGet (download c1env c1world 5).world.store 5 =
      some { c1job with status := .inProgress } ∧
    (download c1env c1world 5).world.state.downloading = [5] ∧
    (download c1env c1world 5).events =
      [.update { c1job with status := .starting },
       .update { c1job with status := .inProgress }] := by
  decide

/-- Claim C2, counterexample. A job stored as Completed is not returned
without effect: dispatching it transitions it to Starting, publishes
Update events, and here ends with the job in ClientError. -/
theorem claim_c2_counterexample :
    (storeGet c2world.store 1).map (·.status) = some .completed ∧
    (download c2env c2world 1).events.head? =
      some (.update { c2job with status := .starting }) ∧
    storeGet (download c2env c2world 1).world.store 1 =
      some { c2job with status := .clientError } := by
  decide

/-- Claim C2, amended. Downloader::download performs no Completed guard:
for every stored job whose preparation does not panic (scratch file
absent or empty, or the job resumable), of any status including
Completed, it inserts the id into the downloading set during
preparation and transitions the job to Starting, publishing that Update
as the first event of the transfer. (A non-resumable job with a nonzero
scratch file instead panics during preparation — still before any
status check, so there is no Completed guard on that path either; the
insertion conjunct holds unconditionally.) -/
theorem claim_c2_amended (env : Env) (w : World) (id : Int) (d : Download)
    (h : storeGet w.store id = some d)
    (hprep : fsSize w.fs d.temp_file = none ∨ fsSize w.fs d.temp_file = some 0 ∨
      d.resumable = true) :
    (download env w id).events.head? =
      some (.update { d with status := .starting }) ∧
    (prepare_download w.state w.fs d).1.downloading.contains d.id = true := by
  constructor
  · have hsucc : ∃ fs1 sb, (prepare_download w.state w.fs d).2 = some (fs1, sb) := by
      unfold prepare_download
      dsimp only
      rcases hprep with h1 | h1 | h1
      · rw [h1]
        exact ⟨_, _, rfl⟩
      · rw [h1]
        exact ⟨_, _, rfl⟩
      · cases hfs : fsSize w.fs d.temp_file with
        | none => exact ⟨_, _, rfl⟩
        | some k =>
          dsimp only
          by_cases hk : 0 < k
          · rw [if_pos hk, if_pos h1]
            exact ⟨_, _, rfl⟩
          · rw [if_neg hk]
            exact ⟨_, _, rfl⟩
    obtain ⟨fs1, sb, hsb⟩ := hsucc
    rcases hp : prepare_download w.state w.fs d with ⟨st1, res⟩
    rw [hp] at hsb
    dsimp only at hsb
    subst hsb
    unfold download
    rw [h]
    dsimp only
    rw [hp]
    cases hb : env.client_build_ok <;>
      simp [update_status_notify, create_client, hb, downloadAfterClient]
  · unfold prepare_download
    rcases hfs : fsSize w.fs d.temp_file with _ | n
    · simpa using setInsert_contains d.id w.state.downloading
    · dsimp only
      split <;> [skip; simpa using setInsert_contains d.id w.state.downloading]
      split <;> simpa using setInsert_contains d.id w.state.downloading

/-- Claim C2, witness for the amended theorem at a Completed job whose
scratch file is absent. -/
theorem claim_c2_amended_witness :
    (download c2env c2world 1).events.head? =
      some (.update { c2job with status := .starting }) ∧
    (prepare_download c2world.state c2world.fs c2job).1.downloading.contains 1 = true :=
  claim_c2_amended c2env c2world 1 c2job (by decide) (Or.inl (by decide))

/-- Claim C3. The SQL text which get_downloads_by_category assembles for
a configured category with one extension is exactly the string below:
the LIKE operand `%?0` places the wildcard outside any string literal
and numbers the parameter from 0, neither of which SQLite accepts, so
the prepared statement fails and the filtered list is never produced;
only the unknown-category branch (an empty Ok list, store untouched)
behaves as claimed, while a known category hands this malformed query to
the store. -/
theorem claim_c3_category_query_malformed :
    category_query ["pdf"] =
      "SELECT * FROM downloads WHERE output_file LIKE %?0 OR detected_output_file LIKE %?0" ∧
    (∀ runQuery, get_downloads_by_category [("documents", ⟨["pdf"], "/docs"⟩)] runQuery "videos" = .ok []) ∧
    (∀ runQuery, get_downloads_by_category [("documents", ⟨["pdf"], "/docs"⟩)] runQuery "documents" =
      runQuery (category_query ["pdf"]) ["pdf"]) := by
  refine ⟨by decide, fun _ => ?_, fun _ => ?_⟩ <;> rfl

/-- Claim C4, counterexample. A job whose optional output_file holds the
non-empty string value NULL does not round-trip: the store writes the
sentinel text and the reader maps it back to an absent field. -/
theorem claim_c4_counterexample :
    c4job.output_file = some "NULL" ∧
    read_download_row 1 (new_download c4job) ≠ some { c4job with id := 1 } ∧
    (read_download_row 1 (new_download c4job)).map (·.output_file) = some none := by
  decide

/-- Claim C4, amended. Every job whose optional string fields do not
hold the exact sentinel value NULL reads back from its stored row with
identical field values apart from the assigned id; this covers absent
detected_output_file, output_file, date_completed and size, and
arbitrary other non-empty string values. -/
theorem claim_c4_amended (id : Int) (d : Download)
    (h1 : d.detected_output_file ≠ some "NULL")
    (h2 : d.output_file ≠ some "NULL") :
    read_download_row id (new_download d) = some { d with id := id } := by
  obtain ⟨id0, url, st, dc, det, out, tmp, res, da, dcp, sz⟩ := d
  simp only [ne_eq] at h1 h2
  simp only [new_download, read_download_row, from_string_get_string,
    parseRustBool_toString, sqlGetInt, Option.bind_eq_bind, Option.some_bind,
    string_to_option_getD _ h1, string_to_option_getD _ h2]
  cases dcp <;> cases sz <;>
    simp [sqlGetInt, sqlGetNat, Int.toNat_natCast]

/-- Claim C4, witness for the amended theorem: a fully populated job
round-trips unchanged apart from the assigned id. -/
theorem claim_c4_amended_witness :
    read_download_row 7 (new_download c4wjob) = some { c4wjob with id := 7 } :=
  claim_c4_amended 7 c4wjob (by decide) (by decide)

/-- Claim C6. When building the HTTP client fails the job does
transition to ClientError with an Update event and the transfer stops
before any request, but the id is not removed from the downloading set:
it remains there after the transfer returns. This evaluates the
transfer at a job whose client construction fails. -/
theorem claim_c6_client_error_keeps_downloading :
    (download c6env c6world 6).outcome = .ok ∧
    storeGet (download c6env c6world 6).world.store 6 =
      some { c6job with status := .clientError } ∧
    (download c6env c6world 6).events =
      [.update { c6job with status := .starting },
       .update { c6job with status := .clientError }] ∧
    (download c6env c6world 6).world.state.downloading = [6] := by
  decide

/-- Claim C7. Parsing a stored status tag does not yield a recoverable
error on unknown input: the catch-all arm of from_string is a panic
(modelled by none), reached for example by the tag bogus, while the nine
known tags parse back to their statuses. -/
theorem claim_c7_from_string_panics :
    DownloadStatus.from_string "bogus" = none ∧
    ∀ st : DownloadStatus, DownloadStatus.from_string st.get_string = some st :=
  ⟨rfl, from_string_get_string⟩

/-- Claim C9, counterexample. Conflict resolution is not idempotent with
respect to a fixed set of existing paths: with no file existing, the
candidate /tmp/a (1) (2).txt resolves to /tmp/a (1).txt — the rfind-based
strip removes only the last marker — and resolving that result again
gives the different path /tmp/a.txt. -/
theorem claim_c9_counterexample :
    get_conflict_free_file_path [] "/tmp/a (1) (2).txt".data = some "/tmp/a (1).txt".data ∧
    get_conflict_free_file_path [] "/tmp/a (1).txt".data = some "/tmp/a.txt".data ∧
    "/tmp/a (1).txt".data ≠ "/tmp/a.txt".data := by
  decide

/-- Claim C9, amended. Conflict resolution is idempotent with respect to
a fixed set of existing paths for absolute candidate paths /dir/name
whose stem carries at most one trailing conflict marker (stripping one
marker must not leave another): the first conjunct covers a plain
dot-free extension with a slash-free dot-free stem, the second a
compound .tar.* extension with a dot-free directory part. Applying the
resolver to its own result returns that result unchanged. -/
theorem claim_c9_amended :
    (∀ (E : List (List Char)) (parent stem0 ext q : List Char),
      parent.head? = some '/' → parent.getLast? ≠ some '/' →
      '/' ∉ stem0 → '.' ∉ stem0 →
      stripMarkerIf stem0 ≠ [] →
      endsWithMarker (stripMarkerIf stem0) = false →
      '/' ∉ ext → '.' ∉ ext →
      get_conflict_free_file_path E (parent ++ '/' :: (stem0 ++ '.' :: ext)) = some q →
      get_conflict_free_file_path E q = some q) ∧
    (∀ (E : List (List Char)) (parent stem0 sExt q : List Char),
      parent.head? = some '/' → parent.getLast? ≠ some '/' →
      '.' ∉ parent → '/' ∉ stem0 → '.' ∉ stem0 →
      sExt ∈ special_extensions →
      endsWithMarker (stripMarkerIf (parent ++ '/' :: stem0)) = false →
      get_conflict_free_file_path E (parent ++ '/' :: (stem0 ++ sExt)) = some q →
      get_conflict_free_file_path E q = some q) :=
  ⟨fun E parent stem0 ext q h1 h2 h3 h4 h5 h6 h7 h8 h9 =>
      gcffp_idem_plain E parent stem0 ext q h1 h2 h3 h4 h5 h6 h7 h8 h9,
   fun E parent stem0 sExt q h1 h2 h3 h4 h5 h6 h7 h8 =>
      gcffp_idem_special E parent stem0 sExt q h1 h2 h3 h4 h5 h6 h7 h8⟩

/-- Claim C9, witness for the amended theorem at the compound-extension
scenario of the spec: with /tmp/a.tar.gz existing, the candidate
resolves to /tmp/a (1).tar.gz, and resolving that result returns it
unchanged. -/
theorem claim_c9_amended_witness :
    get_conflict_free_file_path ["/tmp/a.tar.gz".data] "/tmp/a.tar.gz".data =
      some "/tmp/a (1).tar.gz".data ∧
    get_conflict_free_file_path ["/tmp/a.tar.gz".data] "/tmp/a (1).tar.gz".data =
      some "/tmp/a (1).tar.gz".data := by
  refine ⟨by decide, ?_⟩
  exact claim_c9_amended.2 ["/tmp/a.tar.gz".data] "/tmp".data "a".data ".tar.gz".data
    "/tmp/a (1).tar.gz".data (by decide) (by decide) (by decide) (by decide) (by decide)
    (by decide) (by decide) (by decide)

/-- Claim C10. get_conflict_free_file_path is partial at the
resolve-output step: a client-supplied output_file naming an
extensionless file makes the whole transfer panic on the
extension().unwrap(), as evaluated here on a run that reaches the
resolve step with output_file /tmp/noext. -/
theorem claim_c10_extensionless_output_panics :
    (storeGet c10world.store 9).map (·.output_file) = some (some "/tmp/noext") ∧
    get_conflict_free_file_path [] "/tmp/noext".data = none ∧
    (download c10env c10world 9).outcome = .panicked := by
  decide

/-- Claim C8. The resumable half holds: for a job whose scratch file
exists with nonzero size N and whose resumable flag is set, preparation
records start byte N without touching the file, the append-create open
of the stream step keeps the N bytes, and the built client carries the
default header Range with value bytes=N-. The non-resumable half fails:
the scratch file was opened read-only (src/core/download/mod.rs lines
506-510), so the set_len(0) unwrap at line 522 panics instead of
truncating — preparation aborts (second conjunct), and the evaluated
full transfer at scratch size 500 panics before any status transition,
publishing nothing and leaving the scratch file at 500 bytes. -/
theorem claim_c8_resume_semantics :
    (∀ st fs (d : Download) n cfg, fsSize fs d.temp_file = some n → 0 < n →
        d.resumable = true →
      (prepare_download st fs d).2 = some (fs, some n) ∧
      fsSize (fsCreate fs d.temp_file) d.temp_file = some n ∧
      create_client true (some n) cfg =
        .ok { user_agent := cfg.user_agent,
              range_header := some ("bytes=" ++ toString n ++ "-") }) ∧
    (∀ st fs (d : Download) n, fsSize fs d.temp_file = some n → 0 < n →
        d.resumable = false →
      (prepare_download st fs d).2 = none) ∧
    (download c8env c8world 11).outcome = .panicked ∧
    (download c8env c8world 11).events = [] ∧
    fsSize (download c8env c8world 11).world.fs "/t/scratch" = some 500 := by
  refine ⟨?_, ?_, by decide, by decide, by decide⟩
  · intro st fs d n cfg h hn hres
    refine ⟨?_, ?_, rfl⟩
    · unfold prepare_download
      rw [h]
      simp [hn, hres]
    · rw [fsCreate_of_present fs d.temp_file (by simp [h])]
      exact h
  · intro st fs d n h hn hres
    unfold prepare_download
    rw [h]
    simp [hn, hres]

/-- Claim C8, witness: scratch size 500 with the resumable flag gives
start byte 500 and header value bytes=500-; without the flag,
preparation panics. -/
theorem claim_c8_resume_semantics_witness :
    (prepare_download c8state c8fsR c8jobR).2 = some (c8fsR, some 500) ∧
    create_client true (some 500) testConfig =
      .ok { user_agent := "flowd-agent", range_header := some "bytes=500-" } ∧
    (prepare_download c8state c8fsR c8jobN).2 = none := by
  have h1 := claim_c8_resume_semantics.1 c8state c8fsR c8jobR 500 testConfig
    (by decide) (by decide) (by decide)
  have h2 := claim_c8_resume_semantics.2.1 c8state c8fsR c8jobN 500
    (by decide) (by decide) (by decide)
  exact ⟨h1.1, h1.2.2.trans (by rfl), h2⟩

end Flowd
